import Mathlib

/-!
Verification of the dns-er DNS responder core.

Strings from the Go source are modelled as `List Char` (Go strings are byte
sequences; all data handled by the matching and parsing code here is ASCII).
Each definition is a direct translation of the correspondingly named Go
function from the repository (`server.go`, the config/records file, and the
vendored standard-library helpers it calls).
-/

/-- Character list of a string literal, used to write concrete inputs. -/
def strL (s : String) : List Char := s.data

/-- `startsWith s pre` is true when `s` begins with `pre`
(Go `strings.HasPrefix s pre`). -/
def startsWith : List Char → List Char → Bool
  | _, [] => true
  | [], _ :: _ => false
  | c :: s, d :: pre => if c = d then startsWith s pre else false

/-- Go `strings.Contains s sub`: `sub` occurs as a contiguous substring. -/
def containsSub : List Char → List Char → Bool
  | [], sub => sub.isEmpty
  | c :: rest, sub => startsWith (c :: rest) sub || containsSub rest sub

/-- Go `strings.HasSuffix s suf`. -/
def hasSuffixL (s suf : List Char) : Bool :=
  decide (suf.length ≤ s.length) && (s.drop (s.length - suf.length) == suf)

/-- The text after the first occurrence of `sub` in `s`:
Go `strings.SplitN(s, sub, 2)[1]` when `sub` occurs in `s`. -/
def afterFirst : List Char → List Char → List Char
  | [], _ => []
  | c :: rest, sub =>
    if startsWith (c :: rest) sub then (c :: rest).drop sub.length
    else afterFirst rest sub

/-- Go `strings.ReplaceAll s (single char c) r`. -/
def replaceChar (s : List Char) (c : Char) (r : List Char) : List Char :=
  match s with
  | [] => []
  | a :: rest => if a = c then r ++ replaceChar rest c r else a :: replaceChar rest c r

/-- Go `strings.ToLower` restricted to its ASCII action (`Char.toLower`
performs exactly the ASCII case mapping `'A'..'Z' ↦ 'a'..'z'`). -/
def strToLower (s : List Char) : List Char := s.map Char.toLower

/-- Go `strings.TrimSuffix s "."`: drop one trailing `'.'` if present. -/
def trimDotSuffix (s : List Char) : List Char :=
  if hasSuffixL s ['.'] then s.dropLast else s

/-! ## `path/filepath.Match` (Go standard library, Unix rules)

`MatchDomain` delegates single-level wildcard matching to `filepath.Match`.
The functions below are a direct port of Go's `filepath.Match`,
`scanChunk`, `matchChunk` and `getEsc` with `Separator = '/'` and
backslash escaping enabled (non-Windows).  Loops are written with an
explicit fuel parameter that is always initialised large enough for the
loop bounds of the source (each iteration strictly consumes pattern or
name characters), so the fuel-exhaustion branches are unreachable. -/

/-- Leading-star stripping at the head of Go `scanChunk`. -/
def stripStars : List Char → Bool × List Char
  | [] => (false, [])
  | c :: rest => if c = '*' then (true, (stripStars rest).2) else (false, c :: rest)

/-- The `Scan` loop of Go `scanChunk`: split off the chunk before the next
top-level `'*'`, tracking bracket ranges and skipping escaped characters. -/
def chunkScan : List Char → Bool → List Char × List Char
  | [], _ => ([], [])
  | c :: rest, inrange =>
    if c = '\\' then
      match rest with
      | [] => ([c], [])
      | d :: rest2 =>
        let p := chunkScan rest2 inrange
        (c :: d :: p.1, p.2)
    else if c = '[' then
      let p := chunkScan rest true
      (c :: p.1, p.2)
    else if c = ']' then
      let p := chunkScan rest false
      (c :: p.1, p.2)
    else if c = '*' ∧ ¬ inrange then ([], c :: rest)
    else
      let p := chunkScan rest inrange
      (c :: p.1, p.2)

/-- Go `scanChunk`: `(star, chunk, rest)`. -/
def scanChunk (p : List Char) : Bool × List Char × List Char :=
  let s := stripStars p
  let q := chunkScan s.2 false
  (s.1, q.1, q.2)

/-- Go `getEsc`: read one (possibly escaped) character of a bracket class. -/
def getEsc : List Char → Except Unit (Char × List Char)
  | [] => .error ()
  | c :: rest =>
    if c = '-' ∨ c = ']' then .error ()
    else if c = '\\' then
      match rest with
      | [] => .error ()
      | d :: rest2 => if rest2.isEmpty then .error () else .ok (d, rest2)
    else if rest.isEmpty then .error () else .ok (c, rest)

/-- The range-parsing loop inside the `'['` case of Go `matchChunk`:
returns whether `r` fell in some range, and the chunk after the class. -/
def rangeLoop : Nat → Char → List Char → Bool → Nat → Except Unit (Bool × List Char)
  | 0, _, _, _, _ => .error ()
  | fuel + 1, r, chunk, m, nrange =>
    if chunk.headD (Char.ofNat 0) = ']' ∧ 0 < nrange ∧ ¬ chunk.isEmpty then
      .ok (m, chunk.tail)
    else
      match getEsc chunk with
      | .error () => .error ()
      | .ok (lo, chunk1) =>
        match (if chunk1.headD (Char.ofNat 0) = '-' then getEsc chunk1.tail
               else .ok (lo, chunk1) : Except Unit (Char × List Char)) with
        | .error () => .error ()
        | .ok (hi, chunk2) =>
          rangeLoop fuel r chunk2 (m || decide (lo ≤ r ∧ r ≤ hi)) (nrange + 1)

/-- Go `matchChunk`: match the wildcard-free `chunk` at the front of `s`,
returning the rest of `s` and whether it matched.  `failed` is the local
flag of the source; `.error` is `ErrBadPattern`. -/
def matchChunkGo : Nat → List Char → List Char → Bool → Except Unit (List Char × Bool)
  | 0, _, _, _ => .error ()
  | _, [], s, failed => if failed then .ok ([], false) else .ok (s, true)
  | fuel + 1, c :: chunk1, s0, failed0 =>
    let failed := failed0 || s0.isEmpty
    if c = '[' then
      let r := if failed then Char.ofNat 0 else s0.headD (Char.ofNat 0)
      let s := if failed then s0 else s0.tail
      let neg := match chunk1 with
        | '^' :: rest => (true, rest)
        | _ => (false, chunk1)
      match rangeLoop (neg.2.length + 1) r neg.2 false 0 with
      | .error () => .error ()
      | .ok (m, chunk2) =>
        matchChunkGo fuel chunk2 s (failed || (m == neg.1))
    else if c = '?' then
      if failed then matchChunkGo fuel chunk1 s0 failed
      else matchChunkGo fuel chunk1 s0.tail (s0.headD (Char.ofNat 0) == '/')
    else if c = '\\' then
      match chunk1 with
      | [] => .error ()
      | d :: chunk2 =>
        if failed then matchChunkGo fuel chunk2 s0 failed
        else matchChunkGo fuel chunk2 s0.tail (! (d == s0.headD (Char.ofNat 0)))
    else
      if failed then matchChunkGo fuel chunk1 s0 failed
      else matchChunkGo fuel chunk1 s0.tail (! (c == s0.headD (Char.ofNat 0)))

/-- Go `matchChunk` with its fuel initialised past the chunk length. -/
def matchChunk (chunk s : List Char) : Except Unit (List Char × Bool) :=
  matchChunkGo (chunk.length + 1) chunk s false

mutual

/-- The `Pattern` loop of Go `filepath.Match`. -/
def goMatch : Nat → List Char → List Char → Except Unit Bool
  | 0, _, _ => .ok false
  | fuel + 1, pat, name =>
    if pat.isEmpty then .ok name.isEmpty
    else
      let sc := scanChunk pat
      if sc.1 ∧ sc.2.1.isEmpty then .ok (! containsSub name ['/'])
      else
        match matchChunk sc.2.1 name with
        | .ok (t, true) =>
          if t.isEmpty ∨ ¬ sc.2.2.isEmpty then goMatch fuel sc.2.2 t
          else if sc.1 then starLoop fuel sc.2.1 sc.2.2 name
          else .ok false
        | .ok (_, false) =>
          if sc.1 then starLoop fuel sc.2.1 sc.2.2 name else .ok false
        | .error () => .error ()

/-- The star-skip loop inside Go `filepath.Match`: try the chunk at every
later position of `name`, not skipping past a separator. -/
def starLoop : Nat → List Char → List Char → List Char → Except Unit Bool
  | 0, _, _, _ => .ok false
  | fuel + 1, chunk, rest, name =>
    match name with
    | [] => .ok false
    | c :: nrest =>
      if c = '/' then .ok false
      else
        match matchChunk chunk nrest with
        | .ok (t, true) =>
          if rest.isEmpty ∧ ¬ t.isEmpty then starLoop fuel chunk rest nrest
          else goMatch fuel rest t
        | .ok (_, false) => starLoop fuel chunk rest nrest
        | .error () => .error ()

end

/-- Go `filepath.Match pattern name` on Unix.  Every recursive step of the
loop pair strictly consumes pattern or name material, so the initial fuel
`2*(|pat|+|name|)+4` is never exhausted. -/
def filepathMatch (pat name : List Char) : Except Unit Bool :=
  goMatch (2 * (pat.length + name.length) + 4) pat name

/-! ## The domain matcher (`MatchDomain`) -/

/-- The any-depth marker `"_**"`. -/
def markerChars : List Char := ['_', '*', '*']

/-- The glob pattern `MatchDomain` builds for the `'*'` branch:
`ReplaceAll(pattern, ".", "\\.")` then `ReplaceAll(·, "*", "[^.]*")`. -/
def mkGlob (p : List Char) : List Char :=
  replaceChar (replaceChar p '.' ['\\', '.']) '*' ['[', '^', '.', ']', '*']

/-- `MatchDomain pattern domain` from the repository: trailing-dot strip and
lowercase both sides, then exact match, then the `_**` any-depth branch
(suffix test against the text after the marker), then the `*` branch via
`filepath.Match` on the converted pattern (a match error counts as false). -/
def MatchDomain (pattern domain : List Char) : Bool :=
  let p := strToLower (trimDotSuffix pattern)
  let d := strToLower (trimDotSuffix domain)
  if p = d then true
  else if containsSub p markerChars then hasSuffixL d (afterFirst p markerChars)
  else if containsSub p ['*'] then
    match filepathMatch (mkGlob p) d with
    | .ok b => b
    | .error _ => false
  else false

/-! ## Record store (`RecordEntry`, `FindMatchingRecord`, `LoadRecords`) -/

/-- A single DNS record entry (`RecordEntry` in the repository).  `Typ` is
the source's `Type` field (a reserved word in Lean); `TTL` is a Go `int`,
modelled as `Int`. -/
structure RecordEntry where
  Domain : List Char
  Typ : List Char
  Value : List Char
  TTL : Int
deriving DecidableEq, Repr

/-- `FindMatchingRecord`: strip one trailing dot from the queried domain,
then return the first stored record whose pattern matches it per
`MatchDomain` and whose type equals the requested type.  The global
`Records.Records` slice is passed explicitly as `records`. -/
def FindMatchingRecord (records : List RecordEntry) (domain recordType : List Char) :
    Option RecordEntry :=
  let d := trimDotSuffix domain
  records.find? (fun r => MatchDomain r.Domain d && r.Typ == recordType)

/-- Outcome of decoding the records file, abstracting the TOML parser
(an external collaborator per the spec). -/
inductive DecodeResult where
  | ok (entries : List RecordEntry)
  | error
deriving DecidableEq

/-- `LoadRecords`, as a transition on the active record set.  Inputs model
the filesystem interactions: `fileExists` is the `os.Stat` probe, `saveOk`
whether creating a missing file succeeds, `decoded` the result of
`toml.DecodeFile` on the records file.  The result pairs the returned
error (`some` = non-nil `error`) with the record set after the call: on
any error path the function returns before the locked assignment, leaving
the active set untouched. -/
def LoadRecords (fileExists saveOk : Bool) (decoded : DecodeResult)
    (current : List RecordEntry) : Option Unit × List RecordEntry :=
  if !fileExists && !saveOk then (some (), current)
  else
    match decoded with
    | .error => (some (), current)
    | .ok entries => (none, entries)

/-! ## MX value parsing (`parseMXRecord`) and its helpers -/

/-- Go `strings.Split s (single char sep)`: split on every occurrence,
keeping empty fields; `Split "" sep = [""]`. -/
def splitChar (s : List Char) (sep : Char) : List (List Char) :=
  match s with
  | [] => [[]]
  | c :: rest =>
    if c = sep then [] :: splitChar rest sep
    else
      match splitChar rest sep with
      | [] => [[c]]
      | h :: t => (c :: h) :: t

/-- Go `strconv.Atoi`: optional sign, then one or more decimal digits,
value must fit in a signed 64-bit `int`; anything else is an error
(`none`).  On a range error Go returns a non-nil error, which the caller
treats as failure, so it is `none` here as well. -/
def Atoi (s : List Char) : Option Int :=
  let signed : Bool × List Char :=
    match s with
    | '-' :: rest => (true, rest)
    | '+' :: rest => (false, rest)
    | _ => (false, s)
  let digits := signed.2
  if digits.isEmpty then none
  else if digits.all (fun c => '0' ≤ c ∧ c ≤ '9') then
    let n : Nat := digits.foldl (fun acc c => acc * 10 + (c.toNat - '0'.toNat)) 0
    if signed.1 then
      if n ≤ 2 ^ 63 then some (-(n : Int)) else none
    else
      if n ≤ 2 ^ 63 - 1 then some (n : Int) else none
  else none

/-- Go's truncating conversion `uint16(p)` for an `int` argument. -/
def uint16ofInt (p : Int) : Nat := (p % 65536).toNat

/-- Go's truncating conversion `uint32(n)` for an `int` argument. -/
def uint32ofInt (n : Int) : Nat := (n % 4294967296).toNat

/-- `parseMXRecord` from `server.go`: split the stored value on spaces;
default priority 10 with the first field as target; if there is a second
field and the first parses as an integer, the priority becomes its
`uint16` truncation and the target the second field. -/
def parseMXRecord (value : List Char) : Nat × List Char :=
  let parts := splitChar value ' '
  if parts.length > 1 then
    match Atoi (parts.getD 0 []) with
    | some p => (uint16ofInt p, parts.getD 1 [])
    | none => (10, parts.getD 0 [])
  else (10, parts.getD 0 [])

/-! ## `net.ParseIP` (Go standard library)

`addRecordToMsg` builds A/AAAA answers with `net.ParseIP(record.Value)`,
which returns `nil` (here `none`) when the value is not an IP literal.
Direct port of the classic `net/ip.go` parser: `dtoi`, `xtoi`,
`parseIPv4`, `parseIPv6` and the leading character scan of `ParseIP`. -/

/-- Go `dtoi`: read a decimal prefix, returning `(n, consumed, ok)`;
values reaching `0xFFFFFF` are an overflow. -/
def dtoiAux : List Char → Nat → Nat → Nat × Nat × Bool
  | [], n, i => if i = 0 then (0, 0, false) else (n, i, true)
  | c :: rest, n, i =>
    if '0' ≤ c ∧ c ≤ '9' then
      let n1 := n * 10 + (c.toNat - '0'.toNat)
      if n1 ≥ 0xFFFFFF then (0xFFFFFF, i, false) else dtoiAux rest n1 (i + 1)
    else if i = 0 then (0, 0, false) else (n, i, true)

/-- Go `dtoi` entry point. -/
def dtoi (s : List Char) : Nat × Nat × Bool := dtoiAux s 0 0

/-- Hexadecimal digit value, as read by Go `xtoi`. -/
def hexVal (c : Char) : Option Nat :=
  if '0' ≤ c ∧ c ≤ '9' then some (c.toNat - '0'.toNat)
  else if 'a' ≤ c ∧ c ≤ 'f' then some (c.toNat - 'a'.toNat + 10)
  else if 'A' ≤ c ∧ c ≤ 'F' then some (c.toNat - 'A'.toNat + 10)
  else none

/-- Go `xtoi`: read a hexadecimal prefix, returning `(n, consumed, ok)`. -/
def xtoiAux : List Char → Nat → Nat → Nat × Nat × Bool
  | [], n, i => if i = 0 then (0, 0, false) else (n, i, true)
  | c :: rest, n, i =>
    match hexVal c with
    | none => if i = 0 then (0, 0, false) else (n, i, true)
    | some v =>
      let n1 := n * 16 + v
      if n1 ≥ 0xFFFFFF then (0, i, false) else xtoiAux rest n1 (i + 1)

/-- Go `xtoi` entry point. -/
def xtoi (s : List Char) : Nat × Nat × Bool := xtoiAux s 0 0

/-- The 16-byte form of an IPv4 address, Go `IPv4(a, b, c, d)`. -/
def v4InV6 (p : List Nat) : List Nat :=
  [0, 0, 0, 0, 0, 0, 0, 0, 0, 0, 0xff, 0xff] ++ p

/-- The four-field loop of Go `parseIPv4`; `k` counts remaining fields and
`acc` holds the bytes parsed so far (the `i > 0` test becomes `acc ≠ []`). -/
def parseIPv4Fields : Nat → List Char → List Nat → Option (List Nat)
  | 0, s, acc => if s.isEmpty then some acc else none
  | k + 1, s, acc =>
    if s.isEmpty then none
    else
      match (if acc.isEmpty then some s else
              match s with
              | '.' :: r => some r
              | _ => none : Option (List Char)) with
      | none => none
      | some s1 =>
        let d := dtoi s1
        if ¬ d.2.2 ∨ d.1 > 0xFF then none
        else if d.2.1 > 1 ∧ s1.headD ' ' = '0' then none
        else parseIPv4Fields k (s1.drop d.2.1) (acc ++ [d.1])

/-- Go `parseIPv4`, returning the 16-byte v4-in-v6 form Go's `IPv4` does. -/
def parseIPv4 (s : List Char) : Option (List Nat) :=
  match parseIPv4Fields 4 s [] with
  | none => none
  | some p => some (v4InV6 p)

/-- The hex-group loop of Go `parseIPv6`.  `acc` holds the bytes written so
far (Go's `i` is `acc.length`), `ell` the ellipsis byte position.  The
result is the loop-exit state `(s, acc, ell)`, or `none` for `return nil`.
Each iteration appends at least two bytes and the loop stops at 16, so
fuel 9 is never exhausted. -/
def parseIPv6Loop : Nat → List Char → List Nat → Option Nat →
    Option (List Char × List Nat × Option Nat)
  | 0, _, _, _ => none
  | fuel + 1, s, acc, ell =>
    if acc.length ≥ 16 then some (s, acc, ell)
    else
      let x := xtoi s
      if ¬ x.2.2 ∨ x.1 > 0xFFFF then none
      else if x.2.1 < s.length ∧ s.getD x.2.1 ' ' = '.' then
        if ell.isNone ∧ acc.length ≠ 12 then none
        else if acc.length + 4 > 16 then none
        else
          match parseIPv4 s with
          | none => none
          | some ip4 => some ([], acc ++ ip4.drop 12, ell)
      else
        let acc1 := acc ++ [x.1 / 256, x.1 % 256]
        let s1 := s.drop x.2.1
        if s1.isEmpty then some (s1, acc1, ell)
        else if s1.headD ' ' ≠ ':' ∨ s1.length = 1 then none
        else
          let s2 := s1.tail
          if s2.headD ' ' = ':' then
            if ell.isSome then none
            else
              let s3 := s2.tail
              if s3.isEmpty then some (s3, acc1, some acc1.length)
              else parseIPv6Loop fuel s3 acc1 (some acc1.length)
          else parseIPv6Loop fuel s2 acc1 ell

/-- The tail of Go `parseIPv6`: check the string was consumed, then expand
the ellipsis (shift the bytes after it and zero-fill the gap). -/
def parseIPv6Finish (st : List Char × List Nat × Option Nat) : Option (List Nat) :=
  if ¬ st.1.isEmpty then none
  else
    let acc := st.2.1
    if acc.length < 16 then
      match st.2.2 with
      | none => none
      | some e => some (acc.take e ++ List.replicate (16 - acc.length) 0 ++ acc.drop e)
    else
      match st.2.2 with
      | some _ => none
      | none => some acc

/-- Go `parseIPv6`: optional leading `"::"`, then the group loop. -/
def parseIPv6 (s : List Char) : Option (List Nat) :=
  if startsWith s [':', ':'] then
    if s.length = 2 then some (List.replicate 16 0)
    else
      match parseIPv6Loop 9 (s.drop 2) [] (some 0) with
      | none => none
      | some st => parseIPv6Finish st
  else
    match parseIPv6Loop 9 s [] none with
    | none => none
    | some st => parseIPv6Finish st

/-- Index of the last `'%'` in `s`, or `-1` (Go `last(s, '%')`). -/
def lastPercent (s : List Char) : Int :=
  (s.foldl (fun (st : Int × Int) c => (st.1 + 1, if c = '%' then st.1 else st.2))
    ((0 : Int), (-1 : Int))).2

/-- Go `splitHostZone`: the zone identifier starts after the last `'%'`
when that sign is at a positive index. -/
def splitHostZone (s : List Char) : List Char × List Char :=
  let i := lastPercent s
  if i > 0 then (s.take i.toNat, s.drop (i.toNat + 1)) else (s, [])

/-- Go `parseIPv6Zone`. -/
def parseIPv6Zone (s : List Char) : Option (List Nat) × List Char :=
  let hz := splitHostZone s
  (parseIPv6 hz.1, hz.2)

/-- The character scan of Go `net.ParseIP`: the first `'.'` selects the
IPv4 parser, the first `':'` the IPv6 parser, otherwise `nil`. -/
def ParseIPScan (full : List Char) : List Char → Option (List Nat)
  | [] => none
  | c :: rest =>
    if c = '.' then parseIPv4 full
    else if c = ':' then (parseIPv6Zone full).1
    else ParseIPScan full rest

/-- Go `net.ParseIP`. -/
def ParseIP (s : List Char) : Option (List Nat) := ParseIPScan s s

/-! ## `dns.Fqdn` (miekg/dns library) -/

/-- Length of the run of trailing backslashes. -/
def trailingBackslashes (s : List Char) : Nat :=
  (s.reverse.takeWhile (fun c => c = '\\')).length

/-- miekg/dns `IsFqdn`: a trailing dot that is not escaped (an even number
of backslashes precedes it). -/
def IsFqdn (s : List Char) : Bool :=
  if s.isEmpty ∨ s.getLastD ' ' ≠ '.' then false
  else
    let s1 := s.dropLast
    if s1.isEmpty ∨ s1.getLastD ' ' ≠ '\\' then true
    else trailingBackslashes s1 % 2 = 0

/-- miekg/dns `Fqdn`: append a dot unless already fully qualified. -/
def Fqdn (s : List Char) : List Char := if IsFqdn s then s else s ++ ['.']

/-! ## Query resolution pipeline (`server.go`) -/

/-- Answer-record header (`dns.RR_Header`): the `Rrtype` is implied by the
constructor of `RR` and `Class` is always `ClassINET`, so only the name
and TTL are carried. -/
structure RRHeader where
  Name : List Char
  Ttl : Nat
deriving DecidableEq, Repr

/-- An answer resource record as built by `addRecordToMsg`, keeping the
fields the handler fills in (`dns.A`, `dns.AAAA`, …).  For A/AAAA the
address is the result of `net.ParseIP`, `none` when Go stores `nil`. -/
inductive RR where
  | A (Hdr : RRHeader) (ip : Option (List Nat))
  | AAAA (Hdr : RRHeader) (ip : Option (List Nat))
  | CNAME (Hdr : RRHeader) (Target : List Char)
  | TXT (Hdr : RRHeader) (Txt : List (List Char))
  | MX (Hdr : RRHeader) (Preference : Nat) (Mx : List Char)
  | NS (Hdr : RRHeader) (Ns : List Char)
  | PTR (Hdr : RRHeader) (Ptr : List Char)
deriving DecidableEq, Repr

/-- The fragment of the miekg/dns `TypeToString` map used here (query type
code to type name); a code outside the map yields Go's zero value `""`. -/
def TypeToString (qtype : Nat) : List Char :=
  if qtype = 1 then strL "A"
  else if qtype = 2 then strL "NS"
  else if qtype = 5 then strL "CNAME"
  else if qtype = 12 then strL "PTR"
  else if qtype = 15 then strL "MX"
  else if qtype = 16 then strL "TXT"
  else if qtype = 28 then strL "AAAA"
  else if qtype = 33 then strL "SRV"
  else []

/-- `addRecordToMsg` from `server.go`: the answers appended to the reply
for the given record and type string (the `switch recordType` statement);
an unrecognised type appends nothing. -/
def addRecordToMsg (qName : List Char) (record : RecordEntry) (recordType : List Char) :
    List RR :=
  let hdr : RRHeader := ⟨qName, uint32ofInt record.TTL⟩
  if recordType = strL "A" then [RR.A hdr (ParseIP record.Value)]
  else if recordType = strL "AAAA" then [RR.AAAA hdr (ParseIP record.Value)]
  else if recordType = strL "CNAME" then [RR.CNAME hdr (Fqdn record.Value)]
  else if recordType = strL "TXT" then [RR.TXT hdr [record.Value]]
  else if recordType = strL "MX" then
    [RR.MX hdr (parseMXRecord record.Value).1 (Fqdn (parseMXRecord record.Value).2)]
  else if recordType = strL "NS" then [RR.NS hdr (Fqdn record.Value)]
  else if recordType = strL "PTR" then [RR.PTR hdr (Fqdn record.Value)]
  else []

/-- The record types for which `addRecordToMsg` appends an answer. -/
def supportedTypes : List (List Char) :=
  [strL "A", strL "AAAA", strL "CNAME", strL "TXT", strL "MX", strL "NS", strL "PTR"]

/-- A DNS question `(name, type code)`; the class is not consulted. -/
structure Question where
  name : List Char
  qtype : Nat
deriving DecidableEq, Repr

/-- An incoming DNS message: transaction id and question section. -/
structure Msg where
  id : Nat
  questions : List Question
deriving DecidableEq, Repr

/-- What `handleRequest` decides to do with a query: synthesize a
server-failure reply at the receive step (`SetReply` keeps the query's
transaction id, carried here), answer from local records, or hand the
query to `handleUpstreamRequest`. -/
inductive Outcome where
  | receiveFailure (replyId : Nat)
  | localAnswer (replyId : Nat) (answers : List RR)
  | forwardUpstream
deriving DecidableEq, Repr

/-- `getDomainFromQuestion` from `server.go`. -/
def getDomainFromQuestion (q : Question) : List Char := trimDotSuffix q.name

/-- `handleLocalRecord`: look up the question's domain and type; on a hit
build the answers; report the reply (`some`) only when at least one answer
was added, otherwise `none` (caller falls through to forwarding). -/
def handleLocalRecord (records : List RecordEntry) (q : Question) : Option (List RR) :=
  let recordType := TypeToString q.qtype
  let domain := getDomainFromQuestion q
  match FindMatchingRecord records domain recordType with
  | none => none
  | some record =>
    let answers := addRecordToMsg q.name record recordType
    if answers.length > 0 then some answers else none

/-- `handleRequest`: an empty question section is rejected immediately with
a server-failure reply; otherwise the first question is tried against the
local records and the query is forwarded on a miss or fallthrough. -/
def handleRequest (records : List RecordEntry) (r : Msg) : Outcome :=
  match r.questions with
  | [] => .receiveFailure r.id
  | q :: _ =>
    match handleLocalRecord records q with
    | some answers => .localAnswer r.id answers
    | none => .forwardUpstream

/-! ## Helper lemmas about the string functions -/

theorem startsWith_mem {s p : List Char} (h : startsWith s p = true) : ∀ c ∈ p, c ∈ s := by
  induction s generalizing p with
  | nil =>
    cases p with
    | nil => simp
    | cons d q => simp [startsWith] at h
  | cons a rest ih =>
    cases p with
    | nil => simp
    | cons d q =>
      unfold startsWith at h
      split at h
      · next had =>
        intro c hc
        rcases List.mem_cons.mp hc with rfl | hcq
        · exact had ▸ List.mem_cons_self a rest
        · exact List.mem_cons_of_mem _ (ih h c hcq)
      · exact absurd h (by simp)

theorem containsSub_mem {s sub : List Char} (h : containsSub s sub = true) :
    ∀ c ∈ sub, c ∈ s := by
  induction s with
  | nil =>
    intro c hc
    cases sub with
    | nil => simp at hc
    | cons d q => simp [containsSub] at h
  | cons a rest ih =>
    unfold containsSub at h
    rcases Bool.or_eq_true_iff.mp h with h1 | h2
    · exact startsWith_mem h1
    · exact fun c hc => List.mem_cons_of_mem _ (ih h2 c hc)

theorem mem_of_trimDot {c : Char} {s : List Char} (h : c ∈ trimDotSuffix s) : c ∈ s := by
  unfold trimDotSuffix at h
  split at h
  · exact List.dropLast_subset s h
  · exact h

theorem toLower_eq_star {c : Char} (h : c.toLower = '*') : c = '*' := by
  unfold Char.toLower at h
  dsimp only at h
  by_cases hc : c.toNat ≥ 65 ∧ c.toNat ≤ 90
  · rw [if_pos hc] at h
    exfalso
    have hv : (c.toNat + 32).isValidChar := Or.inl (by omega)
    have h2 : (Char.ofNat (c.toNat + 32)).toNat = c.toNat + 32 := by
      rw [Char.ofNat, dif_pos hv]
      rfl
    rw [h] at h2
    have : ('*' : Char).toNat = 42 := by decide
    omega
  · rwa [if_neg hc] at h

theorem star_mem_strToLower {s : List Char} (h : '*' ∈ strToLower s) : '*' ∈ s := by
  unfold strToLower at h
  rcases List.mem_map.mp h with ⟨c, hc, hl⟩
  rwa [toLower_eq_star hl] at hc

/-- A pattern without `'*'` stays without `'*'` after normalization. -/
theorem star_not_mem_norm {p : List Char} (h : '*' ∉ p) :
    '*' ∉ strToLower (trimDotSuffix p) :=
  fun hm => h (mem_of_trimDot (star_mem_strToLower hm))

theorem containsSub_marker_eq_false {p : List Char} (h : '*' ∉ p) :
    containsSub (strToLower (trimDotSuffix p)) markerChars = false := by
  cases hcs : containsSub (strToLower (trimDotSuffix p)) markerChars with
  | false => rfl
  | true =>
    exact absurd (containsSub_mem hcs '*' (by simp [markerChars]))
      (star_not_mem_norm h)

theorem containsSub_star_eq_false {p : List Char} (h : '*' ∉ p) :
    containsSub (strToLower (trimDotSuffix p)) ['*'] = false := by
  cases hcs : containsSub (strToLower (trimDotSuffix p)) ['*'] with
  | false => rfl
  | true =>
    exact absurd (containsSub_mem hcs '*' (by simp)) (star_not_mem_norm h)

/-! ## Claim theorems -/

/-- C4: for a pattern containing no `'*'` (hence no wildcard and no
any-depth marker), `MatchDomain` is true iff pattern and query name are
equal after stripping one trailing `'.'` from each and lowercasing both. -/
theorem c4_matchDomain_exact_spec (p d : List Char) (h : '*' ∉ p) :
    MatchDomain p d = true ↔
      strToLower (trimDotSuffix p) = strToLower (trimDotSuffix d) := by
  unfold MatchDomain
  dsimp only
  by_cases hpd : strToLower (trimDotSuffix p) = strToLower (trimDotSuffix d)
  · rw [if_pos hpd]
    simp [hpd]
  · rw [if_neg hpd, containsSub_marker_eq_false h, containsSub_star_eq_false h]
    simp [hpd]

/-- Witness for C4 at a concrete case-and-dot-normalized pair. -/
theorem c4_witness : MatchDomain (strL "example.com") (strL "EXAMPLE.COM.") = true :=
  (c4_matchDomain_exact_spec (strL "example.com") (strL "EXAMPLE.COM.") (by decide)).mpr
    (by decide)

/-- C2 (counterexample): the claim says a query with zero extra leading
labels, `deepwildcard.com`, matches the pattern `_**.deepwildcard.com`;
the code rejects it, because the suffix it tests begins with the `'.'`
that follows the marker. -/
theorem c2_counterexample :
    MatchDomain (strL "_**.deepwildcard.com") (strL "deepwildcard.com") = false := by
  decide

/-- C2 (amended): for a pattern containing the any-depth marker `_**`
(after normalization), a query name matches iff it equals the normalized
pattern literally or ends with the text that follows the first marker —
for `_**.deepwildcard.com` the suffix `.deepwildcard.com`, so at least one
leading label is required. -/
theorem c2_matchDomain_marker_spec (p d : List Char)
    (h : containsSub (strToLower (trimDotSuffix p)) markerChars = true) :
    MatchDomain p d = true ↔
      (strToLower (trimDotSuffix p) = strToLower (trimDotSuffix d) ∨
        hasSuffixL (strToLower (trimDotSuffix d))
          (afterFirst (strToLower (trimDotSuffix p)) markerChars) = true) := by
  unfold MatchDomain
  dsimp only
  by_cases hpd : strToLower (trimDotSuffix p) = strToLower (trimDotSuffix d)
  · rw [if_pos hpd]
    simp [hpd]
  · rw [if_neg hpd, h]
    simp [hpd]

/-- Witness for C2's amended form: one and three leading labels match. -/
theorem c2_witness :
    MatchDomain (strL "_**.deepwildcard.com") (strL "a.b.c.deepwildcard.com") = true ∧
    MatchDomain (strL "_**.deepwildcard.com") (strL "a.deepwildcard.com") = true :=
  ⟨(c2_matchDomain_marker_spec (strL "_**.deepwildcard.com")
      (strL "a.b.c.deepwildcard.com") (by decide)).mpr (Or.inr (by decide)),
   (c2_matchDomain_marker_spec (strL "_**.deepwildcard.com")
      (strL "a.deepwildcard.com") (by decide)).mpr (Or.inr (by decide))⟩

/-- C1 (code evaluated at the failing input): the single-level wildcard
pattern `*.wildcard.com` matches `foo.bar.wildcard.com`, although the
label counts differ.  The source converts `*` to `[^.]*` — the regex
idiom for "zero or more non-dot characters" — but hands the result to
`filepath.Match`, whose glob `*` crosses `'.'` (only `'/'` stops it), so
the wildcard spans label separators.  The one-label query also matches. -/
theorem c1_matchDomain_star_crosses_labels :
    MatchDomain (strL "*.wildcard.com") (strL "foo.bar.wildcard.com") = true ∧
    MatchDomain (strL "*.wildcard.com") (strL "foo.wildcard.com") = true := by
  decide

/-- `find?` returns exactly the first element satisfying the predicate:
the list splits at the result and everything before it fails. -/
theorem find?_eq_some_first {α : Type} (p : α → Bool) (l : List α) (x : α) :
    l.find? p = some x ↔
      ∃ l1 l2, l = l1 ++ x :: l2 ∧ p x = true ∧ ∀ y ∈ l1, p y = false := by
  induction l with
  | nil => simp [List.find?]
  | cons a as ih =>
    by_cases h : p a
    · rw [List.find?_cons_of_pos as h]
      constructor
      · intro hx
        obtain rfl : a = x := by simpa using hx
        exact ⟨[], as, rfl, h, by simp⟩
      · rintro ⟨l1, l2, heq, hx, hall⟩
        cases l1 with
        | nil =>
          obtain ⟨rfl, rfl⟩ : a = x ∧ as = l2 := by simpa using heq
          rfl
        | cons b l1' =>
          obtain ⟨rfl, -⟩ : a = b ∧ as = l1' ++ x :: l2 := by simpa using heq
          exact absurd h (by simp [hall a (by simp)])
    · rw [List.find?_cons_of_neg as (by simpa using h)]
      rw [ih]
      constructor
      · rintro ⟨l1, l2, rfl, hx, hall⟩
        refine ⟨a :: l1, l2, rfl, hx, ?_⟩
        intro y hy
        rcases List.mem_cons.mp hy with rfl | hy'
        · simpa using h
        · exact hall y hy'
      · rintro ⟨l1, l2, heq, hx, hall⟩
        cases l1 with
        | nil =>
          obtain ⟨rfl, rfl⟩ : a = x ∧ as = l2 := by simpa using heq
          exact absurd hx (by simpa using h)
        | cons b l1' =>
          obtain ⟨rfl, heq'⟩ : a = b ∧ as = l1' ++ x :: l2 := by simpa using heq
          exact ⟨l1', l2, heq', hx, fun y hy => hall y (List.mem_cons_of_mem _ hy)⟩

/-- C5 (counterexample): the claim describes lookup as testing
`MatchDomain` against the queried domain itself, but `FindMatchingRecord`
first strips one trailing dot.  With domain `example.com..` the stored
entry is returned although `MatchDomain` rejects the raw domain, so "none
iff no entry satisfies both conditions" fails. -/
theorem c5_counterexample :
    FindMatchingRecord [⟨strL "example.com", strL "A", strL "192.168.1.1", 3600⟩]
        (strL "example.com..") (strL "A") =
      some ⟨strL "example.com", strL "A", strL "192.168.1.1", 3600⟩ ∧
    MatchDomain (strL "example.com") (strL "example.com..") = false := by
  decide

/-- C5 (amended): lookup strips one trailing dot from the queried domain,
then scans the stored entries in order and returns the first whose pattern
matches the stripped domain and whose type equals the requested type;
`none` exactly when no stored entry satisfies both conditions. -/
theorem c5_findMatchingRecord_spec (records : List RecordEntry)
    (domain recordType : List Char) :
    (∀ e, FindMatchingRecord records domain recordType = some e ↔
      ∃ l1 l2, records = l1 ++ e :: l2 ∧
        (MatchDomain e.Domain (trimDotSuffix domain) = true ∧ e.Typ = recordType) ∧
        ∀ y ∈ l1,
          ¬ (MatchDomain y.Domain (trimDotSuffix domain) = true ∧ y.Typ = recordType)) ∧
    (FindMatchingRecord records domain recordType = none ↔
      ∀ e ∈ records,
        ¬ (MatchDomain e.Domain (trimDotSuffix domain) = true ∧ e.Typ = recordType)) := by
  constructor
  · intro e
    unfold FindMatchingRecord
    dsimp only
    rw [find?_eq_some_first]
    constructor
    · rintro ⟨l1, l2, rfl, hx, hall⟩
      refine ⟨l1, l2, rfl, by simpa [Bool.and_eq_true] using hx, ?_⟩
      intro y hy
      have := hall y hy
      simp only [Bool.and_eq_true, beq_iff_eq] at this ⊢
      intro hcontra
      rw [hcontra.1, hcontra.2] at this
      simp at this
    · rintro ⟨l1, l2, rfl, hx, hall⟩
      refine ⟨l1, l2, rfl, by simpa [Bool.and_eq_true] using hx, ?_⟩
      intro y hy
      have := hall y hy
      simp only [Bool.and_eq_true, beq_iff_eq] at this ⊢
      by_cases hm : MatchDomain y.Domain (trimDotSuffix domain) = true
      · simp only [hm, Bool.true_and, beq_eq_false_iff_ne, ne_eq]
        intro hc
        exact this ⟨hm, hc⟩
      · rw [Bool.not_eq_true] at hm
        simp [hm]
  · unfold FindMatchingRecord
    dsimp only
    rw [List.find?_eq_none]
    constructor
    · intro hall e he
      have := hall e he
      simp only [Bool.and_eq_true, beq_iff_eq] at this
      exact this
    · intro hall e he
      have := hall e he
      simp only [Bool.and_eq_true, beq_iff_eq]
      exact this

/-- C6: `handleRequest` synthesizes a server-failure reply carrying the
query's transaction id exactly when the question section is empty; with a
question present the receive-step failure branch is never taken (the
outcome is a local answer or an upstream forward). -/
theorem c6_handleRequest_empty_question (records : List RecordEntry) (r : Msg) :
    (r.questions = [] → handleRequest records r = .receiveFailure r.id) ∧
    (r.questions ≠ [] → ∀ i, handleRequest records r ≠ .receiveFailure i) := by
  obtain ⟨msgid, qs⟩ := r
  constructor
  · intro h
    simp only at h
    subst h
    rfl
  · intro hne i
    cases qs with
    | nil => exact absurd rfl hne
    | cons q rest =>
      unfold handleRequest
      dsimp only
      cases handleLocalRecord records q <;> simp

/-- Witness for C6: a query without questions is answered with a failure
reply for its own id; one with a question is not failed at receive. -/
theorem c6_witness :
    handleRequest [] ⟨7, []⟩ = Outcome.receiveFailure 7 ∧
    handleRequest [] ⟨7, [⟨strL "example.com.", 1⟩]⟩ ≠ Outcome.receiveFailure 7 :=
  ⟨(c6_handleRequest_empty_question [] ⟨7, []⟩).1 rfl,
   (c6_handleRequest_empty_question [] ⟨7, [⟨strL "example.com.", 1⟩]⟩).2
     (by decide) 7⟩

/-- C8: when the records file content fails to parse, `LoadRecords`
returns an error and the active record set is untouched, so every
subsequent lookup still observes the previous records. -/
theorem c8_loadRecords_error_atomic (fileExists saveOk : Bool)
    (current : List RecordEntry) :
    (LoadRecords fileExists saveOk .error current).1 = some () ∧
    (LoadRecords fileExists saveOk .error current).2 = current ∧
    ∀ domain recordType,
      FindMatchingRecord (LoadRecords fileExists saveOk .error current).2
          domain recordType =
        FindMatchingRecord current domain recordType := by
  unfold LoadRecords
  cases fileExists <;> cases saveOk <;> simp

/-! ## Lemmas about `splitChar` and `parseMXRecord` -/

theorem splitChar_no_sep {s : List Char} {sep : Char} (h : sep ∉ s) :
    splitChar s sep = [s] := by
  induction s with
  | nil => rfl
  | cons c rest ih =>
    unfold splitChar
    rw [if_neg (by intro hc; exact h (hc ▸ List.mem_cons_self c rest))]
    rw [ih (fun hm => h (List.mem_cons_of_mem _ hm))]

theorem splitChar_append {a b : List Char} {sep : Char} (h : sep ∉ a) :
    splitChar (a ++ sep :: b) sep = a :: splitChar b sep := by
  induction a with
  | nil => simp [splitChar]
  | cons c a1 ih =>
    have hc : ¬ c = sep := fun hc => h (hc ▸ List.mem_cons_self c a1)
    simp only [List.cons_append]
    conv_lhs => rw [splitChar]
    rw [if_neg hc, ih (fun hm => h (List.mem_cons_of_mem _ hm))]

/-- The two-token behaviour of `parseMXRecord` on `"<first> <second>"`. -/
theorem parseMX_two_tokens (pre tgt : List Char) (hp : ' ' ∉ pre) (ht : ' ' ∉ tgt) :
    parseMXRecord (pre ++ ' ' :: tgt) =
      match Atoi pre with
      | some p => (uint16ofInt p, tgt)
      | none => (10, pre) := by
  unfold parseMXRecord
  rw [splitChar_append hp, splitChar_no_sep ht]
  cases hap : Atoi pre <;> simp [hap]

/-- The single-token behaviour of `parseMXRecord`. -/
theorem parseMX_one_token (tgt : List Char) (ht : ' ' ∉ tgt) :
    parseMXRecord tgt = (10, tgt) := by
  unfold parseMXRecord
  rw [splitChar_no_sep ht]
  simp

/-- C7 (counterexample): for the value `"abc mail.example.com"`, whose
priority token is non-numeric, the claim reads the target as the remaining
token `mail.example.com`, but the code leaves the target at the first
token `abc` (the `if` body that advances to `parts[1]` only runs when the
first token parses). -/
theorem c7_counterexample :
    parseMXRecord (strL "abc mail.example.com") = (10, strL "abc") ∧
    (10, strL "abc") ≠ ((10 : Nat), strL "mail.example.com") := by
  decide

/-- C7 (amended): for a two-token value the numeric case yields the
`uint16` truncation of the first token and the second token as target,
and the non-numeric case the default priority 10 with the FIRST token as
target; a single-token value yields priority 10 and that token. -/
theorem c7_parseMXRecord_spec (pre tgt : List Char) (hp : ' ' ∉ pre) (ht : ' ' ∉ tgt) :
    (∀ p : Int, Atoi pre = some p →
        parseMXRecord (pre ++ ' ' :: tgt) = (uint16ofInt p, tgt)) ∧
    (Atoi pre = none → parseMXRecord (pre ++ ' ' :: tgt) = (10, pre)) ∧
    parseMXRecord tgt = (10, tgt) := by
  refine ⟨?_, ?_, parseMX_one_token tgt ht⟩
  · intro p hap
    rw [parseMX_two_tokens pre tgt hp ht, hap]
  · intro hap
    rw [parseMX_two_tokens pre tgt hp ht, hap]

/-- Witness for C7's amended form, covering end-to-end scenario 4
(`"10 mail.example.com"` gives preference 10, target `mail.example.com`),
the absent-priority case, and the non-numeric case. -/
theorem c7_witness :
    parseMXRecord (strL "10 mail.example.com") = (10, strL "mail.example.com") ∧
    parseMXRecord (strL "mail.example.com") = (10, strL "mail.example.com") ∧
    parseMXRecord (strL "abc mail.example.com") = (10, strL "abc") := by
  refine ⟨?_, ?_, ?_⟩
  · exact (c7_parseMXRecord_spec (strL "10") (strL "mail.example.com")
      (by decide) (by decide)).1 10 (by decide)
  · exact (c7_parseMXRecord_spec (strL "10") (strL "mail.example.com")
      (by decide) (by decide)).2.2
  · exact (c7_parseMXRecord_spec (strL "abc") (strL "mail.example.com")
      (by decide) (by decide)).2.1 (by decide)

/-- C10 (counterexample): the claim quantifies over every MX value whose
first token parses out of range, but for the single-token value `"70000"`
the conversion is never reached (`len(parts) > 1` fails) and the result is
the default priority 10, not `70000 mod 2^16 = 4464`. -/
theorem c10_counterexample :
    Atoi (strL "70000") = some 70000 ∧
    parseMXRecord (strL "70000") = (10, strL "70000") ∧
    (10 : Nat) ≠ ((70000 : Int) % 65536).toNat := by
  decide

/-- C10 (amended): for a value with a second token whose first token
parses as an integer `p` outside `0..65535`, the synthesized preference is
`p` reduced modulo `2^16` — which is never `p` itself. -/
theorem c10_uint16_truncation (pre tgt : List Char) (p : Int)
    (hp : ' ' ∉ pre) (ht : ' ' ∉ tgt) (ha : Atoi pre = some p)
    (hr : p < 0 ∨ p > 65535) :
    (parseMXRecord (pre ++ ' ' :: tgt)).1 = (p % 65536).toNat ∧
    p % 65536 ≠ p := by
  constructor
  · rw [parseMX_two_tokens pre tgt hp ht, ha]
    rfl
  · have h0 : (0 : Int) ≤ p % 65536 := Int.emod_nonneg p (by norm_num)
    have h1 : p % 65536 < 65536 := Int.emod_lt_of_pos p (by norm_num)
    omega

/-- Witness for C10's amended form: `"70000 mail.example.com"` yields
preference `70000 mod 2^16 = 4464`. -/
theorem c10_witness :
    (parseMXRecord (strL "70000" ++ ' ' :: strL "mail.example.com")).1 =
      ((70000 : Int) % 65536).toNat ∧
    ((70000 : Int) % 65536).toNat = 4464 :=
  ⟨(c10_uint16_truncation (strL "70000") (strL "mail.example.com") 70000
      (by decide) (by decide) (by decide) (Or.inr (by decide))).1,
   by decide⟩

/-- C3 (counterexample): the claim says an A record whose stored value is
not a parseable IP literal yields zero well-formed answers and the query
falls through to forwarding.  In the code `net.ParseIP` returns `nil` for
the value `notanip`, yet `addRecordToMsg` still appends one A answer with
that `nil` address, so a local (malformed) reply is sent instead of
forwarding. -/
theorem c3_counterexample :
    handleRequest [⟨strL "bad.example.com", strL "A", strL "notanip", 60⟩]
        ⟨5, [⟨strL "bad.example.com.", 1⟩]⟩ =
      Outcome.localAnswer 5 [RR.A ⟨strL "bad.example.com.", 60⟩ none] ∧
    ParseIP (strL "notanip") = none ∧
    handleRequest [⟨strL "bad.example.com", strL "A", strL "notanip", 60⟩]
        ⟨5, [⟨strL "bad.example.com.", 1⟩]⟩ ≠ Outcome.forwardUpstream := by
  decide

/-- `addRecordToMsg` appends no answer exactly for types outside the
supported set, independently of the stored value. -/
theorem addRecordToMsg_eq_nil_iff (n : List Char) (rec : RecordEntry) (t : List Char) :
    addRecordToMsg n rec t = [] ↔ t ∉ supportedTypes := by
  unfold addRecordToMsg supportedTypes
  dsimp only
  split_ifs with h1 h2 h3 h4 h5 h6 h7 <;> simp_all

/-- C3 (amended): when the first question matches a stored record, the
pipeline forwards upstream iff type-specific construction yields zero
answer records; that happens exactly when the record type is outside the
supported set {A, AAAA, CNAME, TXT, MX, NS, PTR} — never because a stored
A/AAAA value fails to parse — and whenever construction yields any
answers (malformed or not), a local reply carrying exactly those answers
is sent instead of forwarding. -/
theorem c3_zero_answers_forward (records : List RecordEntry) (i : Nat)
    (q : Question) (qs : List Question) (rec : RecordEntry)
    (hm : FindMatchingRecord records (getDomainFromQuestion q)
        (TypeToString q.qtype) = some rec) :
    (handleRequest records ⟨i, q :: qs⟩ = .forwardUpstream ↔
        addRecordToMsg q.name rec (TypeToString q.qtype) = []) ∧
    (addRecordToMsg q.name rec (TypeToString q.qtype) = [] ↔
        TypeToString q.qtype ∉ supportedTypes) ∧
    (addRecordToMsg q.name rec (TypeToString q.qtype) ≠ [] →
        handleRequest records ⟨i, q :: qs⟩ =
          .localAnswer i (addRecordToMsg q.name rec (TypeToString q.qtype))) := by
  have hl : handleLocalRecord records q =
      (if (addRecordToMsg q.name rec (TypeToString q.qtype)).length > 0
       then some (addRecordToMsg q.name rec (TypeToString q.qtype)) else none) := by
    unfold handleLocalRecord
    dsimp only
    rw [hm]
  have hlocal : addRecordToMsg q.name rec (TypeToString q.qtype) ≠ [] →
      handleRequest records ⟨i, q :: qs⟩ =
        .localAnswer i (addRecordToMsg q.name rec (TypeToString q.qtype)) := by
    intro hne
    have hlen : 0 < (addRecordToMsg q.name rec (TypeToString q.qtype)).length :=
      List.length_pos.mpr hne
    unfold handleRequest
    dsimp only
    rw [hl, if_pos hlen]
  refine ⟨?_, addRecordToMsg_eq_nil_iff q.name rec (TypeToString q.qtype), hlocal⟩
  constructor
  · intro hf
    by_contra hne
    rw [hlocal hne] at hf
    exact Outcome.noConfusion hf
  · intro hz
    unfold handleRequest
    dsimp only
    rw [hl, hz]
    rfl

/-- Witness for C3's amended form, exercising both directions: a stored
SRV record matches an SRV query, construction appends nothing, and the
query is forwarded; and an A record with an unparseable value still
produces a nonzero answer list, so a local reply with those answers is
sent. -/
theorem c3_witness :
    handleRequest [⟨strL "srv.example.com", strL "SRV", strL "whatever", 60⟩]
        ⟨9, [⟨strL "srv.example.com.", 33⟩]⟩ = Outcome.forwardUpstream ∧
    handleRequest [⟨strL "bad2.example.com", strL "A", strL "stillnotanip", 60⟩]
        ⟨4, [⟨strL "bad2.example.com.", 1⟩]⟩ =
      Outcome.localAnswer 4
        (addRecordToMsg (strL "bad2.example.com.")
          ⟨strL "bad2.example.com", strL "A", strL "stillnotanip", 60⟩
          (TypeToString 1)) :=
  ⟨(c3_zero_answers_forward
      [⟨strL "srv.example.com", strL "SRV", strL "whatever", 60⟩] 9
      ⟨strL "srv.example.com.", 33⟩ []
      ⟨strL "srv.example.com", strL "SRV", strL "whatever", 60⟩
      (by decide)).1.mpr (by decide),
   (c3_zero_answers_forward
      [⟨strL "bad2.example.com", strL "A", strL "stillnotanip", 60⟩] 4
      ⟨strL "bad2.example.com.", 1⟩ []
      ⟨strL "bad2.example.com", strL "A", strL "stillnotanip", 60⟩
      (by decide)).2.2 (by decide)⟩

